import Mathlib

/-!
Shallow embedding of the DTN data-ingestion system's core logic.

Sources embedded here:
- `src/ohlc_ingest.py` — historical OHLC ingestor (trading-hours gate, session
  cutoff, per-timeframe gap-fill loop, bar formatting, measurement naming);
- `src/scripts/ohlc_ingest.py` — `OHLCIngestionService._get_timeframes`
  (configured timeframe depths);
- `src/live_tick_ingest.py` — `DynamicLiveTickListener` (tick fan-out, backfill,
  watched-symbol filter);
- `src/scripts/live_tick_ingest.py` — `LiveTickListener` and
  `update_watched_symbols` (reconciliation);
- `src/ingestion_service/admin/services/schedule_manager.py` — schedule
  registration and cron parsing.

Time model: Eastern wall-clock datetimes are pairs (calendar-day index, micro-
seconds within the day); the vendor's `date` field is a day count and its
`time` field microseconds within the day, exactly as the NumPy
`datetime64[D] + timedelta64[us]` composition in `format_data_for_influx`.
The UTC instant of an Eastern wall-clock time is obtained by adding a fixed
offset `off` (microseconds; for New York, +5 h or +4 h worth of microseconds
depending on DST — all theorems hold for every offset).  Calendar days are
abstract `Int` indices; weekday follows Python's convention 0 = Monday via
`day.emod 7` with the epoch anchored on a Monday.
-/

/-- Microseconds in one day. -/
def usPerDay : Int := 86400000000

/-- Microseconds since Eastern midnight for a wall-clock hour and minute. -/
def usOfHM (h m : Int) : Int := (h * 60 + m) * 60000000

/-- An Eastern wall-clock datetime: calendar-day index and microseconds within
the day. -/
structure ETDateTime where
  day : Int
  usOfDay : Int
  deriving DecidableEq, Repr

/-- UTC instant (microseconds) of an Eastern wall-clock datetime, for offset
`off` = UTC − ET in microseconds. -/
def utcOfET (off : Int) (t : ETDateTime) : Int :=
  t.day * usPerDay + t.usOfDay + off

/-- Eastern calendar-day index of a UTC instant (floor division; `/` on `Int`
is Euclidean division, which floors for the positive divisor `usPerDay`). -/
def etDayOfUTC (off ts : Int) : Int := (ts - off) / usPerDay

/-- Python `weekday()` of an Eastern day index: 0 = Monday … 6 = Sunday. -/
def etWeekday (d : Int) : Int := d.emod 7

/-- `is_nasdaq_trading_hours` (src/ohlc_ingest.py lines 192–214): true iff the
Eastern time is a weekday with time-of-day in 09:30–16:00 inclusive. -/
def is_nasdaq_trading_hours (nowET : ETDateTime) : Bool :=
  if 5 ≤ etWeekday nowET.day then false
  else decide (usOfHM 9 30 ≤ nowET.usOfDay) && decide (nowET.usOfDay ≤ usOfHM 16 0)

/-- `get_last_completed_session_end_time_utc` (src/ohlc_ingest.py lines
216–228): yesterday's date if now-ET is before 20:00, else today's; the cutoff
is 20:00 ET on that date converted to UTC. -/
def get_last_completed_session_end_time_utc (off : Int) (nowET : ETDateTime) : Int :=
  let targetDay := if nowET.usOfDay < usOfHM 20 0 then nowET.day - 1 else nowET.day
  utcOfET off ⟨targetDay, usOfHM 20 0⟩

/-- One vendor bar as returned by pyiqfeed: `date` (Eastern calendar day),
`time` (microseconds within the day; only meaningful for intraday bars, whose
dtype has a `time` field), prices and the two volume columns, each of which
may be absent from the dtype. -/
structure DtnBar where
  date : Int
  timeUs : Int
  openP : Int
  highP : Int
  lowP : Int
  closeP : Int
  prdVlm : Option Int
  totVlm : Option Int
  deriving DecidableEq, Repr

/-- A formatted row as handed to the Influx write API: UTC timestamp (index),
measurement name, OHLC fields, volume and the two tag columns. -/
structure InfluxRow where
  tsUTC : Int
  measurement : String
  openV : Int
  highV : Int
  lowV : Int
  closeV : Int
  volume : Int
  symbol : String
  exchange : String
  deriving DecidableEq, Repr

/-- The measurement name produced by
`df.timestamp.dt.strftime('ohlc_SYMBOL_%Y%m%d_TF')`: the `%Y%m%d` component is
the Eastern calendar day of the (Eastern-localized) timestamp.  The abstract
day index is rendered with `toString`, an injective stand-in for the
`YYYYMMDD` rendering of the date. -/
def measurementOf (symbol : String) (day : Int) (tf : String) : String :=
  "ohlc_" ++ symbol ++ "_" ++ toString day ++ "_" ++ tf

/-- `format_data_for_influx` (src/ohlc_ingest.py lines 252–298).  Composes each
bar's timestamp from the vendor `date` (+ `time` when the dtype has one) and
localizes it to Eastern; drops rows whose UTC timestamp exceeds the cutoff;
derives the per-row measurement name from the Eastern date of the row's own
timestamp; maps `prd_vlm` to volume, falling back to `tot_vlm`, then to 0;
attaches the symbol and exchange tag columns.  (In the source the measurement
column is computed after the cutoff filter; both are per-row and commute.)
`formatRow` is the per-row part of the conversion. -/
def formatRow (symbol exchange tf : String) (hasTimeField : Bool) (off : Int)
    (b : DtnBar) : InfluxRow :=
  let us : Int := if hasTimeField then b.timeUs else 0
  { tsUTC := utcOfET off ⟨b.date, us⟩
    measurement := measurementOf symbol (b.date + us / usPerDay) tf
    openV := b.openP, highV := b.highP, lowV := b.lowP, closeV := b.closeP
    volume := b.prdVlm.getD (b.totVlm.getD 0)
    symbol := symbol, exchange := exchange }

def format_data_for_influx (dtnData : List DtnBar) (symbol exchange tf : String)
    (hasTimeField : Bool) (off : Int) (cutoff : Option Int) : List InfluxRow :=
  if dtnData.isEmpty then []
  else
    match cutoff with
    | some c =>
      (dtnData.map (formatRow symbol exchange tf hasTimeField off)).filter
        fun r => decide (r.tsUTC ≤ c)
    | none => dtnData.map (formatRow symbol exchange tf hasTimeField off)

/-- Per-timeframe parameters from the `timeframes_to_fetch` table:
vendor interval length, whether the interval type is `'d'`, and depth in
days. -/
structure TFParams where
  interval : Int
  isDaily : Bool
  days : Int
  deriving DecidableEq, Repr

/-- A call made to the vendor history connection. -/
inductive VendorCall where
  | barsInPeriod (ticker : String) (interval : Int) (startTs endTs : Int)
  | dailyData (ticker : String) (numDays : Int)
  deriving DecidableEq, Repr

/-- The observable outcome of (part of) a historical run: the vendor calls
made and the rows written to the store. -/
structure RunOutcome where
  calls : List VendorCall
  writes : List InfluxRow
  deriving DecidableEq, Repr

/-- The body of one iteration of the timeframe loop in
`fetch_and_store_history` (src/ohlc_ingest.py lines 326–367).  `latest` is the
result of the latest-timestamp probe, `vendor` the vendor's response function.
Intraday (`type ≠ 'd'`): start at the probed timestamp, else cutoff − days;
skip when start ≥ cutoff; request bars in [start, cutoff].  Daily: request
`days` days, or `(now − latest).days + 1` when a latest timestamp exists; skip
when ≤ 0.  Non-empty responses are formatted (with the cutoff) and written
grouped by measurement — grouping preserves the row set, so writes are the
formatted rows.  `intradayStart`, `dailyNumDays` and `writesOfCall` name the
pieces of that loop body; `process_timeframe` is the body itself. -/
def intradayStart (cutoff : Int) (p : TFParams) (latest : Option Int) : Int :=
  latest.getD (cutoff - p.days * usPerDay)

def dailyNumDays (nowUTC : Int) (p : TFParams) (latest : Option Int) : Int :=
  match latest with
  | none => p.days
  | some l => (nowUTC - l) / usPerDay + 1

def writesOfCall (symbol exchange tf : String) (hasTimeField : Bool) (off cutoff : Int)
    (vendor : VendorCall → List DtnBar) (call : VendorCall) : List InfluxRow :=
  if (vendor call).isEmpty then []
  else format_data_for_influx (vendor call) symbol exchange tf hasTimeField off (some cutoff)

def process_timeframe (symbol exchange : String) (off cutoff nowUTC : Int)
    (tf : String) (p : TFParams) (latest : Option Int)
    (vendor : VendorCall → List DtnBar) : RunOutcome :=
  if !p.isDaily then
    if cutoff ≤ intradayStart cutoff p latest then ⟨[], []⟩
    else
      ⟨[VendorCall.barsInPeriod symbol p.interval (intradayStart cutoff p latest) cutoff],
       writesOfCall symbol exchange tf true off cutoff vendor
         (VendorCall.barsInPeriod symbol p.interval (intradayStart cutoff p latest) cutoff)⟩
  else
    if dailyNumDays nowUTC p latest ≤ 0 then ⟨[], []⟩
    else
      ⟨[VendorCall.dailyData symbol (dailyNumDays nowUTC p latest)],
       writesOfCall symbol exchange tf false off cutoff vendor
         (VendorCall.dailyData symbol (dailyNumDays nowUTC p latest))⟩

/-- The hard-coded `timeframes_to_fetch` table of src/ohlc_ingest.py lines
309–324. -/
def timeframes_to_fetch : List (String × TFParams) :=
  [("1s", ⟨1, false, 7⟩), ("5s", ⟨5, false, 7⟩), ("10s", ⟨10, false, 7⟩),
   ("15s", ⟨15, false, 7⟩), ("30s", ⟨30, false, 7⟩), ("45s", ⟨45, false, 7⟩),
   ("1m", ⟨60, false, 180⟩), ("5m", ⟨300, false, 180⟩), ("10m", ⟨600, false, 180⟩),
   ("15m", ⟨900, false, 180⟩), ("30m", ⟨1800, false, 180⟩), ("45m", ⟨2700, false, 180⟩),
   ("1h", ⟨3600, false, 180⟩), ("1d", ⟨1, true, 720⟩)]

/-- `fetch_and_store_history` (src/ohlc_ingest.py lines 300–372): computes the
session cutoff once, then runs the timeframe loop; `latest` gives the probe
result per timeframe code. -/
def fetch_and_store_history (symbol exchange : String) (off : Int)
    (nowET : ETDateTime) (nowUTC : Int) (latest : String → Option Int)
    (vendor : VendorCall → List DtnBar) : RunOutcome :=
  let cutoff := get_last_completed_session_end_time_utc off nowET
  { calls := timeframes_to_fetch.flatMap fun tp =>
      (process_timeframe symbol exchange off cutoff nowUTC tp.1 tp.2 (latest tp.1) vendor).calls
    writes := timeframes_to_fetch.flatMap fun tp =>
      (process_timeframe symbol exchange off cutoff nowUTC tp.1 tp.2 (latest tp.1) vendor).writes }

/-- `daily_update` (src/ohlc_ingest.py lines 374–404): aborts — before any
store write or vendor call — when `is_nasdaq_trading_hours()` is true, when
InfluxDB is unreachable, or when no IQFeed connection is available; otherwise
runs `fetch_and_store_history` for each symbol. -/
def daily_update (symbols : List String) (exchange : String) (off : Int)
    (nowET : ETDateTime) (nowUTC : Int) (influxOk histConnOk : Bool)
    (latest : String → String → Option Int)
    (vendor : VendorCall → List DtnBar) : RunOutcome :=
  if is_nasdaq_trading_hours nowET then ⟨[], []⟩
  else if !influxOk then ⟨[], []⟩
  else if !histConnOk then ⟨[], []⟩
  else
    { calls := symbols.flatMap fun s =>
        (fetch_and_store_history s exchange off nowET nowUTC (latest s) vendor).calls
      writes := symbols.flatMap fun s =>
        (fetch_and_store_history s exchange off nowET nowUTC (latest s) vendor).writes }

/-! ## Timeframe configuration (`OHLCIngestionService`, src/scripts/ohlc_ingest.py) -/

/-- `dict.get(key, default)` over the `timeframes_to_fetch` map of the global
system config stored under the Redis key `dtn:system:config`. -/
def cfgGetD (cfg : List (String × Int)) (k : String) (d : Int) : Int :=
  (cfg.lookup k).getD d

/-- `OHLCIngestionService._get_timeframes` (src/scripts/ohlc_ingest.py lines
424–443): always all 14 timeframes; each depth is the configured
`timeframes_to_fetch` value when present, else the hard-coded default.  The
argument is the global system config's map — no symbol is involved. -/
def get_timeframes (cfg : List (String × Int)) : List (String × TFParams) :=
  [("1s", ⟨1, false, cfgGetD cfg "1s" 7⟩),
   ("5s", ⟨5, false, cfgGetD cfg "5s" 7⟩),
   ("10s", ⟨10, false, cfgGetD cfg "10s" 7⟩),
   ("15s", ⟨15, false, cfgGetD cfg "15s" 7⟩),
   ("30s", ⟨30, false, cfgGetD cfg "30s" 7⟩),
   ("45s", ⟨45, false, cfgGetD cfg "45s" 7⟩),
   ("1m", ⟨60, false, cfgGetD cfg "1m" 180⟩),
   ("5m", ⟨300, false, cfgGetD cfg "5m" 180⟩),
   ("10m", ⟨600, false, cfgGetD cfg "10m" 180⟩),
   ("15m", ⟨900, false, cfgGetD cfg "15m" 180⟩),
   ("30m", ⟨1800, false, cfgGetD cfg "30m" 180⟩),
   ("45m", ⟨2700, false, cfgGetD cfg "45m" 180⟩),
   ("1h", ⟨3600, false, cfgGetD cfg "1h" 180⟩),
   ("1d", ⟨1, true, cfgGetD cfg "1d" 720⟩)]

/-- The canonical per-timeframe maximum-depth table (design §6): 7 days for
second timeframes, 180 for minute/hour, 720 for daily. -/
def canonicalDepthTable : List (String × Int) :=
  [("1s", 7), ("5s", 7), ("10s", 7), ("15s", 7), ("30s", 7), ("45s", 7),
   ("1m", 180), ("5m", 180), ("10m", 180), ("15m", 180), ("30m", 180),
   ("45m", 180), ("1h", 180), ("1d", 720)]

/-! ## Live tick fan-out (src/live_tick_ingest.py and
src/scripts/live_tick_ingest.py) -/

/-- An operation issued to Redis by the live tick ingestors.  Tick payloads
are represented by their price and volume (the timestamp component is "now"
and does not bear on any claim). -/
inductive RedisOp where
  | publish (channel : String) (price volume : Int)
  | rpush (key : String) (price volume : Int)
  | expire (key : String) (ttl : Int)
  | del (key : String)
  deriving DecidableEq, Repr

/-- `DynamicLiveTickListener._publish_tick` (src/live_tick_ingest.py lines
133–149): publish on `live_ticks:<S>`, then `rpush` onto
`intraday_ticks:<S>` — with no `expire` on the pipeline. -/
def dyn_publish_tick (symbol : String) (price volume : Int) : List RedisOp :=
  [.publish ("live_ticks:" ++ symbol) price volume,
   .rpush ("intraday_ticks:" ++ symbol) price volume]

/-- `LiveTickListener._publish_tick` (src/scripts/live_tick_ingest.py lines
71–94): publish on `live_ticks:<S>`, `rpush` onto `intraday_ticks:<S>`, then
`expire` the key to 86 400 s. -/
def scripts_publish_tick (symbol : String) (price volume : Int) : List RedisOp :=
  [.publish ("live_ticks:" ++ symbol) price volume,
   .rpush ("intraday_ticks:" ++ symbol) price volume,
   .expire ("intraday_ticks:" ++ symbol) 86400]

/-- A historical tick as used by the backfill loops (price and size). -/
structure HistTick where
  price : Int
  volume : Int
  deriving DecidableEq, Repr

/-- The Redis operations of `backfill_intraday_data` (identical op shape in
both listeners: src/live_tick_ingest.py lines 91–131 and
src/scripts/live_tick_ingest.py lines 31–69): when the vendor returned ticks,
delete the buffer key, `rpush` every tick, then `expire` the key to
86 400 s; otherwise touch nothing. -/
def backfill_tick_ops (symbol : String) (ticks : List HistTick) : List RedisOp :=
  if ticks.isEmpty then []
  else
    .del ("intraday_ticks:" ++ symbol) ::
      (ticks.map fun t => .rpush ("intraday_ticks:" ++ symbol) t.price t.volume)
      ++ [.expire ("intraday_ticks:" ++ symbol) 86400]

/-- Does the op list contain an `expire key 86400`? -/
def hasExpire86400 (k : String) (ops : List RedisOp) : Bool :=
  ops.any fun o => match o with
    | .expire k' t => k' == k && t == 86400
    | _ => false

/-- Every `rpush` to key `k` in the op list is followed, later in the same
list, by an `expire k 86400`. -/
def everyRpushPaired (k : String) : List RedisOp → Bool
  | [] => true
  | o :: rest =>
    (match o with
     | .rpush k' _ _ => if k' == k then hasExpire86400 k rest else true
     | _ => true) && everyRpushPaired k rest

/-- A vendor quote message (trade update or summary row): decoded symbol,
`Most Recent Trade` and `Most Recent Trade Size`. -/
structure QuoteMsg where
  symbol : String
  mostRecentTrade : Int
  mostRecentTradeSize : Int
  deriving DecidableEq, Repr

/-- `LiveTickListener.process_update` (src/scripts/live_tick_ingest.py lines
108–121): skip unless price > 0 and volume > 0, else publish the tick. -/
def scripts_process_update (msgs : List QuoteMsg) : List RedisOp :=
  msgs.flatMap fun t =>
    if t.mostRecentTrade ≤ 0 ∨ t.mostRecentTradeSize ≤ 0 then []
    else scripts_publish_tick t.symbol t.mostRecentTrade t.mostRecentTradeSize

/-- `LiveTickListener.process_summary` (src/scripts/live_tick_ingest.py lines
96–106): if price > 0, publish a tick with volume 0. -/
def scripts_process_summary (msgs : List QuoteMsg) : List RedisOp :=
  msgs.flatMap fun s =>
    if 0 < s.mostRecentTrade then scripts_publish_tick s.symbol s.mostRecentTrade 0
    else []

/-- `DynamicLiveTickListener.process_update` (src/live_tick_ingest.py lines
163–175): only symbols in `active_symbols` are considered; publish when
price > 0 and volume > 0. -/
def dyn_process_update (active : List String) (msgs : List QuoteMsg) : List RedisOp :=
  msgs.flatMap fun t =>
    if active.contains t.symbol then
      if 0 < t.mostRecentTrade ∧ 0 < t.mostRecentTradeSize then
        dyn_publish_tick t.symbol t.mostRecentTrade t.mostRecentTradeSize
      else []
    else []

/-- `DynamicLiveTickListener.process_summary` (src/live_tick_ingest.py lines
151–161): only symbols in `active_symbols`; publish with volume 0 when
price > 0. -/
def dyn_process_summary (active : List String) (msgs : List QuoteMsg) : List RedisOp :=
  msgs.flatMap fun s =>
    if active.contains s.symbol then
      if 0 < s.mostRecentTrade then dyn_publish_tick s.symbol s.mostRecentTrade 0
      else []
    else []

/-! ## Symbol reconciliation (`update_watched_symbols`,
src/scripts/live_tick_ingest.py lines 123–154) -/

/-- An action taken against the vendor quote/history connections during one
reconciliation pass. -/
inductive LiveAction where
  | backfill (symbol : String)
  | watch (symbol : String)
  | unwatch (symbol : String)
  deriving DecidableEq, Repr

/-- The symbol an action concerns. -/
def LiveAction.actSymbol : LiveAction → String
  | .backfill s => s
  | .watch s => s
  | .unwatch s => s

/-- `update_watched_symbols`: with `desired` the set of symbols decoded from
the Redis key `dtn:ingestion:symbols` and `watched` the current watched set
(both Python sets, modelled as duplicate-free lists), compute
`symbols_to_add = desired − watched` and `symbols_to_remove = watched −
desired`; for each added symbol run `backfill_intraday_data` then
`trades_watch` and insert it into the watched set; for each removed symbol run
`unwatch` and delete it.  Returns the action trace and the final watched
set. -/
def symbols_to_add (desired watched : List String) : List String :=
  desired.filter fun s => !watched.contains s

def symbols_to_remove (desired watched : List String) : List String :=
  watched.filter fun s => !desired.contains s

def update_watched_symbols (desired watched : List String) :
    List LiveAction × List String :=
  ((symbols_to_add desired watched).flatMap (fun s => [.backfill s, .watch s])
     ++ (symbols_to_remove desired watched).map .unwatch,
   watched.filter (fun s => desired.contains s) ++ symbols_to_add desired watched)

/-! ## Schedule manager (src/ingestion_service/admin/services/schedule_manager.py) -/

/-- Splitter on space runs over a character list: `acc` holds the (reversed)
current piece; empty pieces are discarded. -/
def wsSplitAux : List Char → List Char → List (List Char)
  | acc, [] => if acc.isEmpty then [] else [acc.reverse]
  | acc, ' ' :: cs =>
    if acc.isEmpty then wsSplitAux [] cs else acc.reverse :: wsSplitAux [] cs
  | acc, c :: cs => wsSplitAux (c :: acc) cs

/-- Python's `cron_expression.split()`: split on whitespace runs, discarding
empty pieces (cron expressions use plain spaces). -/
def cronParts (expr : String) : List String :=
  (wsSplitAux [] expr.toList).map fun cs => String.mk cs

/-- A scheduler job registered by the manager: job id plus the (symbol,
schedule-type) it runs. -/
structure SchedJob where
  jobId : String
  symbol : String
  scheduleType : String
  deriving DecidableEq, Repr

/-- The input of `ScheduleManager.create_schedule` (a `ScheduleCreate`). -/
structure ScheduleCreate where
  symbol : String
  scheduleType : String
  cronExpression : String
  enabled : Bool
  deriving DecidableEq, Repr

/-- `ScheduleManager._update_scheduler_job` (schedule_manager.py lines 60–93):
remove any existing job with id `ingestion_<id>`; if the schedule is enabled,
split the cron expression and build a `CronTrigger` from `cron_parts[0]` …
`cron_parts[4]` — an expression with fewer than five fields raises an
uncaught `IndexError` (modelled as `Except.error "IndexError"`; field-value
errors raised by `CronTrigger` itself are not modelled) — then register the
job for the schedule's type.  There is no try/except and no warning log
anywhere in this method. -/
def update_scheduler_job (jobs : List SchedJob) (scheduleId symbol scheduleType
    cronExpression : String) (enabled : Bool) : Except String (List SchedJob) :=
  let jobId := "ingestion_" ++ scheduleId
  let jobs := jobs.filter fun j => j.jobId ≠ jobId
  if enabled then
    let parts := cronParts cronExpression
    if parts.length < 5 then .error "IndexError"
    else if scheduleType = "historical" then
      .ok (jobs ++ [⟨jobId, symbol, scheduleType⟩])
    else if scheduleType = "live" then
      .ok (jobs ++ [⟨jobId, symbol, scheduleType⟩])
    else .ok jobs
  else .ok jobs

/-- `ScheduleManager.create_schedule` (schedule_manager.py lines 20–43): build
the config with id `<symbol>_<schedule_type>`, store its JSON under Redis key
`schedule:<id>` (modelled as recording the key), and — when enabled — call
`_update_scheduler_job`, whose exception propagates to the caller.  Returns
the Redis keys written and either the resulting job list or the propagated
error. -/
def create_schedule (redisKeys : List String) (jobs : List SchedJob)
    (s : ScheduleCreate) : List String × Except String (List SchedJob) :=
  let scheduleId := s.symbol ++ "_" ++ s.scheduleType
  let key := "schedule:" ++ scheduleId
  let redisKeys := redisKeys ++ [key]
  if s.enabled then
    (redisKeys, update_scheduler_job jobs scheduleId s.symbol s.scheduleType
      s.cronExpression s.enabled)
  else (redisKeys, .ok jobs)

/-- Does the op list publish anything on the given channel? -/
def publishesOn (channel : String) (ops : List RedisOp) : Bool :=
  ops.any fun o => match o with
    | .publish c _ _ => c == channel
    | _ => false

/-! ## Theorems -/

theorem etDayOfUTC_utcOfET (off : Int) (t : ETDateTime) :
    etDayOfUTC off (utcOfET off t) = t.day + t.usOfDay / usPerDay := by
  unfold etDayOfUTC utcOfET
  have h : t.day * usPerDay + t.usOfDay + off - off = t.usOfDay + t.day * usPerDay := by
    ring
  rw [h, Int.add_mul_ediv_right t.usOfDay t.day (by decide : usPerDay ≠ 0), add_comm]

theorem mem_format_data_for_influx {data : List DtnBar} {symbol exchange tf : String}
    {hasTimeField : Bool} {off : Int} {cutoff : Option Int} {r : InfluxRow}
    (hr : r ∈ format_data_for_influx data symbol exchange tf hasTimeField off cutoff) :
    ∃ b ∈ data, r = formatRow symbol exchange tf hasTimeField off b := by
  unfold format_data_for_influx at hr
  split at hr
  · exact absurd hr (List.not_mem_nil r)
  · cases cutoff with
    | none =>
      obtain ⟨b, hb, hEq⟩ := List.mem_map.mp hr
      exact ⟨b, hb, hEq.symm⟩
    | some c =>
      obtain ⟨b, hb, hEq⟩ := List.mem_map.mp (List.mem_filter.mp hr).1
      exact ⟨b, hb, hEq.symm⟩

/-- C1: every row produced by `format_data_for_influx` (hence every bar the
historical ingestor writes) carries the measurement name
`ohlc_<symbol>_<date>_<tf>` in which `<date>` is the Eastern calendar date of
that row's own timestamp (recovered from the UTC timestamp by converting back
to Eastern), `<symbol>` is the symbol being ingested, and `<tf>` is the
timeframe code the loop iteration passed in. -/
theorem measurement_name_eastern_date
    (data : List DtnBar) (symbol exchange tf : String) (hasTimeField : Bool)
    (off : Int) (cutoff : Option Int) (r : InfluxRow)
    (hr : r ∈ format_data_for_influx data symbol exchange tf hasTimeField off cutoff) :
    r.measurement = measurementOf symbol (etDayOfUTC off r.tsUTC) tf ∧
      r.symbol = symbol := by
  obtain ⟨b, _, rfl⟩ := mem_format_data_for_influx hr
  refine ⟨?_, rfl⟩
  simp only [formatRow]
  rw [etDayOfUTC_utcOfET]

theorem c1_measurement_name_witness :
    ({ tsUTC := 19800 * usPerDay + 3600000000 + 18000000000
       measurement := measurementOf "AAPL" 19800 "5m"
       openV := 1, highV := 2, lowV := 3, closeV := 4, volume := 10
       symbol := "AAPL", exchange := "NASDAQ" } : InfluxRow).measurement
      = measurementOf "AAPL"
          (etDayOfUTC 18000000000 (19800 * usPerDay + 3600000000 + 18000000000)) "5m" :=
  (measurement_name_eastern_date
      [{ date := 19800, timeUs := 3600000000, openP := 1, highP := 2, lowP := 3,
         closeP := 4, prdVlm := some 10, totVlm := some 20 }]
      "AAPL" "NASDAQ" "5m" true 18000000000 none _ (by decide)).1

theorem format_data_for_influx_le_cutoff {data : List DtnBar}
    {symbol exchange tf : String} {hasTimeField : Bool} {off c : Int} {r : InfluxRow}
    (hr : r ∈ format_data_for_influx data symbol exchange tf hasTimeField off (some c)) :
    r.tsUTC ≤ c := by
  unfold format_data_for_influx at hr
  split at hr
  · exact absurd hr (List.not_mem_nil r)
  · exact of_decide_eq_true (List.mem_filter.mp hr).2

theorem writesOfCall_le_cutoff {symbol exchange tf : String} {hasTimeField : Bool}
    {off cutoff : Int} {vendor : VendorCall → List DtnBar} {call : VendorCall}
    {r : InfluxRow}
    (hr : r ∈ writesOfCall symbol exchange tf hasTimeField off cutoff vendor call) :
    r.tsUTC ≤ cutoff := by
  unfold writesOfCall at hr
  split at hr
  · exact absurd hr (List.not_mem_nil r)
  · exact format_data_for_influx_le_cutoff hr

theorem process_timeframe_writes_le_cutoff {symbol exchange : String}
    {off cutoff nowUTC : Int} {tf : String} {p : TFParams} {latest : Option Int}
    {vendor : VendorCall → List DtnBar} {r : InfluxRow}
    (hr : r ∈ (process_timeframe symbol exchange off cutoff nowUTC tf p latest vendor).writes) :
    r.tsUTC ≤ cutoff := by
  unfold process_timeframe at hr
  split at hr <;> split at hr <;>
    first
      | exact absurd hr (List.not_mem_nil r)
      | exact writesOfCall_le_cutoff hr

/-- C2: every row the historical ingestor writes in a run has UTC timestamp at
most the session cutoff computed at the start of that symbol's
`fetch_and_store_history` call, and the cutoff is exactly: 20:00 Eastern on
yesterday's date when now-ET is before 20:00 (today's date otherwise),
converted to UTC.  Rows beyond the cutoff were dropped by the formatter
before writing. -/
theorem writes_le_session_cutoff
    (symbol exchange : String) (off : Int) (nowET : ETDateTime) (nowUTC : Int)
    (latest : String → Option Int) (vendor : VendorCall → List DtnBar) (r : InfluxRow)
    (hr : r ∈ (fetch_and_store_history symbol exchange off nowET nowUTC latest vendor).writes) :
    r.tsUTC ≤ get_last_completed_session_end_time_utc off nowET ∧
      get_last_completed_session_end_time_utc off nowET =
        utcOfET off ⟨(if nowET.usOfDay < usOfHM 20 0 then nowET.day - 1 else nowET.day),
          usOfHM 20 0⟩ := by
  refine ⟨?_, rfl⟩
  unfold fetch_and_store_history at hr
  simp only [List.mem_flatMap] at hr
  obtain ⟨tp, _, hmem⟩ := hr
  exact process_timeframe_writes_le_cutoff hmem

theorem c2_session_cutoff_witness :
    ({ tsUTC := 19800 * usPerDay + 18000000000
       measurement := measurementOf "AAPL" 19800 "1s"
       openV := 1, highV := 2, lowV := 3, closeV := 4, volume := 10
       symbol := "AAPL", exchange := "NASDAQ" } : InfluxRow).tsUTC
      ≤ get_last_completed_session_end_time_utc 18000000000 ⟨19800, usOfHM 21 0⟩ :=
  (writes_le_session_cutoff "AAPL" "NASDAQ" 18000000000 ⟨19800, usOfHM 21 0⟩ 0
    (fun _ => none)
    (fun c => match c with
      | .barsInPeriod _ 1 _ _ =>
        [{ date := 19800, timeUs := 0, openP := 1, highP := 2, lowP := 3,
           closeP := 4, prdVlm := some 10, totVlm := some 20 }]
      | _ => [])
    _ (by decide)).1

/-- C4: invoking the historical run (`daily_update`) at an Eastern-time
weekday moment with time-of-day in 09:30–16:00 inclusive aborts before any
vendor call or store write — the outcome is zero calls and zero writes; and
at any moment outside that window (weekends included, at any time) the gate
predicate `is_nasdaq_trading_hours` is false, so the gate does not fire. -/
theorem trading_hours_gate_zero_writes
    (symbols : List String) (exchange : String) (off : Int) (nowET : ETDateTime)
    (nowUTC : Int) (influxOk histConnOk : Bool)
    (latest : String → String → Option Int) (vendor : VendorCall → List DtnBar) :
    ((etWeekday nowET.day < 5 ∧ usOfHM 9 30 ≤ nowET.usOfDay ∧
        nowET.usOfDay ≤ usOfHM 16 0) →
      daily_update symbols exchange off nowET nowUTC influxOk histConnOk latest vendor
        = ⟨[], []⟩) ∧
    (¬(etWeekday nowET.day < 5 ∧ usOfHM 9 30 ≤ nowET.usOfDay ∧
        nowET.usOfDay ≤ usOfHM 16 0) →
      is_nasdaq_trading_hours nowET = false) := by
  constructor
  · rintro ⟨h1, h2, h3⟩
    have hg : is_nasdaq_trading_hours nowET = true := by
      unfold is_nasdaq_trading_hours
      rw [if_neg (not_le.mpr h1)]
      simp [h2, h3]
    unfold daily_update
    rw [if_pos hg]
  · intro h
    unfold is_nasdaq_trading_hours
    by_cases hw : 5 ≤ etWeekday nowET.day
    · rw [if_pos hw]
    · rw [if_neg hw]
      have h' : ¬(usOfHM 9 30 ≤ nowET.usOfDay) ∨ ¬(nowET.usOfDay ≤ usOfHM 16 0) := by
        by_contra hc
        push_neg at hc
        exact h ⟨not_le.mp hw, hc.1, hc.2⟩
      rcases h' with h' | h' <;> simp [h']

theorem c4_trading_hours_witness :
    daily_update ["AAPL"] "NASDAQ" 18000000000 ⟨1, usOfHM 11 0⟩ 0 true true
        (fun _ _ => none) (fun _ => []) = ⟨[], []⟩ ∧
      is_nasdaq_trading_hours ⟨6, usOfHM 11 0⟩ = false :=
  ⟨(trading_hours_gate_zero_writes ["AAPL"] "NASDAQ" 18000000000 ⟨1, usOfHM 11 0⟩ 0
      true true (fun _ _ => none) (fun _ => [])).1 ⟨by decide, by decide, by decide⟩,
   (trading_hours_gate_zero_writes ["AAPL"] "NASDAQ" 18000000000 ⟨6, usOfHM 11 0⟩ 0
      true true (fun _ _ => none) (fun _ => [])).2 (by decide)⟩

/-- C5: for an intraday timeframe the loop body starts the fetch range at the
probed latest timestamp when present and at cutoff − depth·days otherwise;
when that start is at or past the cutoff the timeframe is skipped outright
(no vendor call, no write), and otherwise exactly one vendor call
`request_bars_in_period` is made, ranging from that start to the cutoff. -/
theorem intraday_range_choice
    (symbol exchange tf : String) (off cutoff nowUTC : Int) (p : TFParams)
    (latest : Option Int) (vendor : VendorCall → List DtnBar)
    (hIntra : p.isDaily = false) :
    (cutoff ≤ latest.getD (cutoff - p.days * usPerDay) →
      process_timeframe symbol exchange off cutoff nowUTC tf p latest vendor = ⟨[], []⟩) ∧
    (latest.getD (cutoff - p.days * usPerDay) < cutoff →
      (process_timeframe symbol exchange off cutoff nowUTC tf p latest vendor).calls
        = [VendorCall.barsInPeriod symbol p.interval
            (latest.getD (cutoff - p.days * usPerDay)) cutoff]) := by
  have hb : (!p.isDaily) = true := by simp [hIntra]
  unfold process_timeframe intradayStart
  rw [if_pos hb]
  constructor
  · intro h
    rw [if_pos h]
  · intro h
    rw [if_neg (not_le.mpr h)]

theorem c5_intraday_range_witness :
    process_timeframe "AAPL" "NASDAQ" 0 1728000000000000 0 "5m" ⟨300, false, 180⟩
        (some 1728000000000000) (fun _ => []) = ⟨[], []⟩ ∧
      (process_timeframe "AAPL" "NASDAQ" 0 1728000000000000 0 "5m" ⟨300, false, 180⟩
          none (fun _ => [])).calls
        = [VendorCall.barsInPeriod "AAPL" 300
            (1728000000000000 - 180 * usPerDay) 1728000000000000] :=
  ⟨(intraday_range_choice "AAPL" "NASDAQ" "5m" 0 1728000000000000 0 ⟨300, false, 180⟩
      (some 1728000000000000) (fun _ => []) rfl).1 (by decide),
   (intraday_range_choice "AAPL" "NASDAQ" "5m" 0 1728000000000000 0 ⟨300, false, 180⟩
      none (fun _ => []) rfl).2 (by decide)⟩

/-- C3 counterexample: the effective depths are not `min(D_sym, D_T)` and do
not come from `schedule:<S>_historical`.  With the default (empty) global
config, `5m` is fetched 180 days deep even though a symbol may be configured
with historical-depth D_sym = 1 (so `min(D_sym, 180) = 1 ≠ 180`); and a
global config override of 365 for `1s` is used as-is although the canonical
maximum D_T is 7 (so the depth is not `min(·, 7)` of anything). -/
theorem timeframe_depth_not_min_cex :
    ((get_timeframes []).lookup "5m" = some ⟨300, false, 180⟩ ∧
      min (1 : Int) 180 = 1 ∧ (180 : Int) ≠ 1) ∧
    ((get_timeframes [("1s", 365)]).lookup "1s" = some ⟨1, false, 365⟩ ∧
      min (365 : Int) 7 = 7 ∧ (365 : Int) ≠ 7) := by decide

/-- C3 amended: the historical ingestor always iterates the full canonical
list of 14 timeframe codes; each timeframe's effective depth comes from the
global `timeframes_to_fetch` map of the system config (`dtn:system:config`) —
the configured value when present, else the canonical default — with no
per-symbol `schedule:<S>_historical` lookup and no `min` with a per-symbol
depth.  Stated as a refinement against the canonical depth table of the
design. -/
theorem timeframe_depths_from_global_config (cfg : List (String × Int)) :
    (get_timeframes cfg).map (fun tp => (tp.1, tp.2.days))
        = canonicalDepthTable.map (fun td => (td.1, cfgGetD cfg td.1 td.2)) ∧
      (get_timeframes cfg).map Prod.fst = canonicalDepthTable.map Prod.fst := by
  exact ⟨rfl, rfl⟩

/-- C6 counterexample: the dynamic listener's live fan-out
(`DynamicLiveTickListener._publish_tick`) performs an `rpush` onto
`intraday_ticks:MSFT` with no subsequent `expire` of that key, so not every
`rpush` is paired with a TTL reset. -/
theorem dyn_fanout_rpush_unpaired_cex :
    everyRpushPaired ("intraday_ticks:" ++ "MSFT")
      (dyn_publish_tick "MSFT" 41012 5) = false := by decide

theorem hasExpire86400_append_expire (k : String) (l : List RedisOp) :
    hasExpire86400 k (l ++ [RedisOp.expire k 86400]) = true := by
  induction l with
  | nil => simp [hasExpire86400]
  | cons o rest ih =>
    simp only [hasExpire86400, List.cons_append, List.any_cons] at ih ⊢
    rw [ih, Bool.or_true]

theorem everyRpushPaired_rpushes_then_expire (k : String) (ticks : List HistTick) :
    everyRpushPaired k
      ((ticks.map fun t => RedisOp.rpush k t.price t.volume)
        ++ [RedisOp.expire k 86400]) = true := by
  induction ticks with
  | nil => simp [everyRpushPaired]
  | cons t rest ih =>
    simp only [List.map_cons, List.cons_append, everyRpushPaired, List.append_eq]
    rw [ih, if_pos (by simp), hasExpire86400_append_expire, Bool.and_self]

/-- C6 amended: the backfill path (both listeners) and the scripts listener's
live fan-out pair every `rpush` onto `intraday_ticks:<S>` with an `expire` of
that key to 86 400 s; the dynamic listener's live fan-out does not (its
`rpush` has no paired `expire`, per the counterexample), so there the TTL is
only (re)set by backfill. -/
theorem rpush_expire_pairing_amended (s : String) (p v : Int) (ticks : List HistTick) :
    everyRpushPaired ("intraday_ticks:" ++ s) (scripts_publish_tick s p v) = true ∧
      everyRpushPaired ("intraday_ticks:" ++ s) (backfill_tick_ops s ticks) = true := by
  constructor
  · simp [everyRpushPaired, scripts_publish_tick, hasExpire86400]
  · unfold backfill_tick_ops
    split
    · rfl
    · simp only [everyRpushPaired, List.append_eq]
      rw [everyRpushPaired_rpushes_then_expire, Bool.and_self]

/-- C8: `ScheduleManager.create_schedule` on a schedule whose cron expression
has only four fields first persists the schedule JSON under
`schedule:FOO_historical` in Redis and then raises an uncaught `IndexError`
from `cron_parts[4]` out of `_update_scheduler_job` to the caller — no
warning-and-skip.  (No job is registered, and jobs of other schedules are
untouched, since the error aborts before any `add_job`.) -/
theorem create_schedule_malformed_cron_raises :
    create_schedule [] [⟨"ingestion_BAR_historical", "BAR", "historical"⟩]
        ⟨"FOO", "historical", "* * * *", true⟩
      = (["schedule:FOO_historical"], Except.error "IndexError") := rfl

/-- C7 counterexample: the dynamic listener drops a well-formed trade update
(price 410.12, size 5 — both positive) whose symbol is not in
`active_symbols`, so "published iff price > 0 and volume > 0" fails for it. -/
theorem dyn_unwatched_trade_dropped_cex :
    dyn_process_update ["AAPL"]
        [{ symbol := "MSFT", mostRecentTrade := 41012, mostRecentTradeSize := 5 }] = [] ∧
      (0 : Int) < 41012 ∧ (0 : Int) < 5 := by decide

/-- C7 amended: for the scripts listener the conditions are exactly as
claimed — a trade update is published iff its price > 0 and volume > 0, a
summary iff its price > 0; for the dynamic listener the same conditions hold
with the additional conjunct that the decoded symbol is in `active_symbols`.
Published summary ticks carry volume 0 in both listeners, so a trade with
volume 0 is never published. -/
theorem publish_conditions_amended (t : QuoteMsg) (active : List String) :
    (publishesOn ("live_ticks:" ++ t.symbol) (scripts_process_update [t]) = true ↔
       0 < t.mostRecentTrade ∧ 0 < t.mostRecentTradeSize) ∧
    (publishesOn ("live_ticks:" ++ t.symbol) (scripts_process_summary [t]) = true ↔
       0 < t.mostRecentTrade) ∧
    (publishesOn ("live_ticks:" ++ t.symbol) (dyn_process_update active [t]) = true ↔
       (t.symbol ∈ active ∧ 0 < t.mostRecentTrade ∧ 0 < t.mostRecentTradeSize)) ∧
    (publishesOn ("live_ticks:" ++ t.symbol) (dyn_process_summary active [t]) = true ↔
       (t.symbol ∈ active ∧ 0 < t.mostRecentTrade)) ∧
    (∀ c p v, RedisOp.publish c p v ∈ scripts_process_summary [t] → v = 0) ∧
    (∀ c p v, RedisOp.publish c p v ∈ dyn_process_summary active [t] → v = 0) := by
  refine ⟨?_, ?_, ?_, ?_, ?_, ?_⟩
  · simp only [scripts_process_update, List.flatMap_cons, List.flatMap_nil,
      List.append_nil]
    split_ifs with h
    · simp only [publishesOn, List.any_nil, Bool.false_eq_true, false_iff]
      rintro ⟨h1, h2⟩
      rcases h with h | h <;> omega
    · push_neg at h
      simp [publishesOn, scripts_publish_tick, h.1, h.2]
  · simp only [scripts_process_summary, List.flatMap_cons, List.flatMap_nil,
      List.append_nil]
    split_ifs with h
    · simp [publishesOn, scripts_publish_tick, h]
    · simp only [publishesOn, List.any_nil, Bool.false_eq_true, false_iff]
      exact h
  · simp only [dyn_process_update, List.flatMap_cons, List.flatMap_nil,
      List.append_nil]
    split_ifs with ha h
    · have ha' : t.symbol ∈ active := by simpa using ha
      simp [publishesOn, dyn_publish_tick, ha', h.1, h.2]
    · simp only [publishesOn, List.any_nil, Bool.false_eq_true, false_iff]
      rintro ⟨_, h1, h2⟩
      exact h ⟨h1, h2⟩
    · simp only [publishesOn, List.any_nil, Bool.false_eq_true, false_iff]
      rintro ⟨h1, _⟩
      exact (by simpa using ha : t.symbol ∉ active) h1
  · simp only [dyn_process_summary, List.flatMap_cons, List.flatMap_nil,
      List.append_nil]
    split_ifs with ha h
    · have ha' : t.symbol ∈ active := by simpa using ha
      simp [publishesOn, dyn_publish_tick, ha', h]
    · simp only [publishesOn, List.any_nil, Bool.false_eq_true, false_iff]
      rintro ⟨_, h1⟩
      exact h h1
    · simp only [publishesOn, List.any_nil, Bool.false_eq_true, false_iff]
      rintro ⟨h1, _⟩
      exact (by simpa using ha : t.symbol ∉ active) h1
  · intro c p v hmem
    simp only [scripts_process_summary, List.flatMap_cons, List.flatMap_nil,
      List.append_nil] at hmem
    split_ifs at hmem
    · simp [scripts_publish_tick] at hmem
      exact hmem.2.2
    · exact absurd hmem (List.not_mem_nil _)
  · intro c p v hmem
    simp only [dyn_process_summary, List.flatMap_cons, List.flatMap_nil,
      List.append_nil] at hmem
    split_ifs at hmem
    · simp [dyn_publish_tick] at hmem
      exact hmem.2.2
    · exact absurd hmem (List.not_mem_nil _)
    · exact absurd hmem (List.not_mem_nil _)

theorem c7_publish_conditions_witness :
    publishesOn ("live_ticks:" ++ "MSFT")
        (scripts_process_update
          [{ symbol := "MSFT", mostRecentTrade := 41012, mostRecentTradeSize := 5 }])
      = true ∧
    publishesOn ("live_ticks:" ++ "MSFT")
        (dyn_process_update ["MSFT"]
          [{ symbol := "MSFT", mostRecentTrade := 41012, mostRecentTradeSize := 5 }])
      = true :=
  ⟨(publish_conditions_amended
      { symbol := "MSFT", mostRecentTrade := 41012, mostRecentTradeSize := 5 }
      ["MSFT"]).1.mpr ⟨by decide, by decide⟩,
   (publish_conditions_amended
      { symbol := "MSFT", mostRecentTrade := 41012, mostRecentTradeSize := 5 }
      ["MSFT"]).2.2.1.mpr ⟨by decide, by decide, by decide⟩⟩

theorem filter_actSymbol_addActions {s : String} {l : List String} (hnd : l.Nodup) :
    ((l.flatMap fun x => [LiveAction.backfill x, LiveAction.watch x]).filter
        fun a => a.actSymbol == s)
      = if s ∈ l then [LiveAction.backfill s, LiveAction.watch s] else [] := by
  induction l with
  | nil => simp
  | cons x xs ih =>
    obtain ⟨hx, hxs⟩ := List.nodup_cons.mp hnd
    rw [List.flatMap_cons, List.filter_append, ih hxs]
    by_cases heq : x = s
    · subst heq
      rw [if_neg hx, if_pos (List.mem_cons_self x xs)]
      simp [LiveAction.actSymbol]
    · have hms : (s ∈ x :: xs) ↔ s ∈ xs := by
        simp [List.mem_cons, Ne.symm heq]
      simp [LiveAction.actSymbol, heq, hms]

theorem filter_actSymbol_removeActions {s : String} {l : List String} (hnd : l.Nodup) :
    ((l.map LiveAction.unwatch).filter fun a => a.actSymbol == s)
      = if s ∈ l then [LiveAction.unwatch s] else [] := by
  induction l with
  | nil => simp
  | cons x xs ih =>
    obtain ⟨hx, hxs⟩ := List.nodup_cons.mp hnd
    rw [List.map_cons, List.filter_cons, ih hxs]
    by_cases heq : x = s
    · subst heq
      rw [if_neg hx, if_pos (List.mem_cons_self x xs)]
      simp [LiveAction.actSymbol]
    · have hms : (s ∈ x :: xs) ↔ s ∈ xs := by
        simp [List.mem_cons, Ne.symm heq]
      simp [LiveAction.actSymbol, heq, hms]

theorem mem_symbols_to_add {desired watched : List String} {x : String} :
    x ∈ symbols_to_add desired watched ↔ (x ∈ desired ∧ x ∉ watched) := by
  simp [symbols_to_add, List.mem_filter]

theorem mem_symbols_to_remove {desired watched : List String} {x : String} :
    x ∈ symbols_to_remove desired watched ↔ (x ∈ watched ∧ x ∉ desired) := by
  simp [symbols_to_remove, List.mem_filter]

/-- C9: after one reconciliation pass (`update_watched_symbols`, as run on
every `symbol_updates` pub-sub event), the watched set equals the desired
set; projected onto any single symbol, the action trace is exactly
`[backfill, trades_watch]` for a newly desired symbol (backfill strictly
before the watch), exactly `[unwatch]` for a symbol no longer desired, and
empty for a symbol that stays watched. -/
theorem reconciliation_fixed_point (desired watched : List String)
    (hd : desired.Nodup) (hw : watched.Nodup) (s : String) :
    (∀ x, x ∈ (update_watched_symbols desired watched).2 ↔ x ∈ desired) ∧
    (s ∈ desired → s ∉ watched →
      ((update_watched_symbols desired watched).1.filter fun a => a.actSymbol == s)
        = [LiveAction.backfill s, LiveAction.watch s]) ∧
    (s ∈ watched → s ∉ desired →
      ((update_watched_symbols desired watched).1.filter fun a => a.actSymbol == s)
        = [LiveAction.unwatch s]) ∧
    (s ∈ watched → s ∈ desired →
      ((update_watched_symbols desired watched).1.filter fun a => a.actSymbol == s)
        = []) := by
  have hAddNodup : (symbols_to_add desired watched).Nodup := hd.filter _
  have hRemNodup : (symbols_to_remove desired watched).Nodup := hw.filter _
  refine ⟨?_, ?_, ?_, ?_⟩
  · intro x
    simp only [update_watched_symbols, List.mem_append, List.mem_filter,
      mem_symbols_to_add]
    constructor
    · rintro (⟨_, hc⟩ | ⟨hxd, _⟩)
      · simpa using hc
      · exact hxd
    · intro hxd
      by_cases hxw : x ∈ watched
      · exact Or.inl ⟨hxw, by simpa using hxd⟩
      · exact Or.inr ⟨hxd, hxw⟩
  · intro hsd hsw
    simp only [update_watched_symbols, List.filter_append]
    rw [filter_actSymbol_addActions hAddNodup,
      filter_actSymbol_removeActions hRemNodup,
      if_pos (mem_symbols_to_add.mpr ⟨hsd, hsw⟩),
      if_neg (fun hc => hsw (mem_symbols_to_remove.mp hc).1)]
    rfl
  · intro hsw hsd
    simp only [update_watched_symbols, List.filter_append]
    rw [filter_actSymbol_addActions hAddNodup,
      filter_actSymbol_removeActions hRemNodup,
      if_neg (fun hc => hsd (mem_symbols_to_add.mp hc).1),
      if_pos (mem_symbols_to_remove.mpr ⟨hsw, hsd⟩)]
    rfl
  · intro hsw hsd
    simp only [update_watched_symbols, List.filter_append]
    rw [filter_actSymbol_addActions hAddNodup,
      filter_actSymbol_removeActions hRemNodup,
      if_neg (fun hc => (mem_symbols_to_add.mp hc).2 hsw),
      if_neg (fun hc => (mem_symbols_to_remove.mp hc).2 hsd)]
    rfl

theorem c9_reconciliation_witness :
    ((update_watched_symbols ["B", "C"] ["A", "B"]).1.filter
        fun a => a.actSymbol == "C") = [LiveAction.backfill "C", LiveAction.watch "C"] ∧
    ((update_watched_symbols ["B", "C"] ["A", "B"]).1.filter
        fun a => a.actSymbol == "A") = [LiveAction.unwatch "A"] ∧
    ("B" ∈ (update_watched_symbols ["B", "C"] ["A", "B"]).2 ↔ "B" ∈ ["B", "C"]) :=
  ⟨(reconciliation_fixed_point ["B", "C"] ["A", "B"] (by decide) (by decide) "C").2.1
      (by decide) (by decide),
   (reconciliation_fixed_point ["B", "C"] ["A", "B"] (by decide) (by decide) "A").2.2.1
      (by decide) (by decide),
   (reconciliation_fixed_point ["B", "C"] ["A", "B"] (by decide) (by decide) "B").1 "B"⟩

theorem dyn_update_channels {active : List String} {msgs : List QuoteMsg}
    {c : String} {p v : Int}
    (hmem : RedisOp.publish c p v ∈ dyn_process_update active msgs) :
    ∃ x, x ∈ active ∧ c = "live_ticks:" ++ x := by
  induction msgs with
  | nil => simp [dyn_process_update] at hmem
  | cons m ms ih =>
    simp only [dyn_process_update, List.flatMap_cons] at hmem
    rcases List.mem_append.mp hmem with h | h
    · split_ifs at h with ha hcond
      · simp [dyn_publish_tick] at h
        exact ⟨m.symbol, by simpa using ha, h.1⟩
      · exact absurd h (List.not_mem_nil _)
      · exact absurd h (List.not_mem_nil _)
    · exact ih h

theorem dyn_summary_channels {active : List String} {msgs : List QuoteMsg}
    {c : String} {p v : Int}
    (hmem : RedisOp.publish c p v ∈ dyn_process_summary active msgs) :
    ∃ x, x ∈ active ∧ c = "live_ticks:" ++ x := by
  induction msgs with
  | nil => simp [dyn_process_summary] at hmem
  | cons m ms ih =>
    simp only [dyn_process_summary, List.flatMap_cons] at hmem
    rcases List.mem_append.mp hmem with h | h
    · split_ifs at h with ha hcond
      · simp [dyn_publish_tick] at h
        exact ⟨m.symbol, by simpa using ha, h.1⟩
      · exact absurd h (List.not_mem_nil _)
      · exact absurd h (List.not_mem_nil _)
    · exact ih h

/-- C10: the dynamic listener publishes nothing for unwatched symbols — a
trade or summary message whose decoded symbol is not in `active_symbols`
produces no Redis operation at all (no publish on `live_ticks:<S>`, no append
to `intraday_ticks:<S>`); moreover every channel ever published to by the
dynamic listener is `live_ticks:<x>` for some currently watched `x`. -/
theorem unwatched_symbol_not_published (active : List String) (t : QuoteMsg)
    (h : t.symbol ∉ active) :
    dyn_process_update active [t] = [] ∧
    dyn_process_summary active [t] = [] ∧
    (∀ msgs c p v,
      RedisOp.publish c p v ∈
          dyn_process_update active msgs ++ dyn_process_summary active msgs →
        ∃ x, x ∈ active ∧ c = "live_ticks:" ++ x) := by
  have hc : active.contains t.symbol = false := by simpa using h
  refine ⟨?_, ?_, ?_⟩
  · simp [dyn_process_update, h]
  · simp [dyn_process_summary, h]
  · intro msgs c p v hmem
    rcases List.mem_append.mp hmem with hm | hm
    · exact dyn_update_channels hm
    · exact dyn_summary_channels hm

theorem c10_unwatched_witness :
    dyn_process_update ["TSLA"]
        [{ symbol := "NVDA", mostRecentTrade := 500, mostRecentTradeSize := 3 }] = [] ∧
      dyn_process_summary ["TSLA"]
        [{ symbol := "NVDA", mostRecentTrade := 500, mostRecentTradeSize := 3 }] = [] :=
  ⟨(unwatched_symbol_not_published ["TSLA"]
      { symbol := "NVDA", mostRecentTrade := 500, mostRecentTradeSize := 3 }
      (by decide)).1,
   (unwatched_symbol_not_published ["TSLA"]
      { symbol := "NVDA", mostRecentTrade := 500, mostRecentTradeSize := 3 }
      (by decide)).2.1⟩
